import Mathlib

/-!
Verification development for the yolink-local-ha repository.

The repository merges partial, inconsistently shaped device event payloads
into per-device state snapshots.  We shallowly embed the Python code:
JSON-like payload values become an inductive `Value`; Python dicts become
association lists over `String` keys with Python dict semantics (insertion
updates the value in place when the key is present, appends at the end when
it is absent); the coordinator event handler, the merge engines, the payload
normalizer, the descriptor derivation, the availability check and the
standalone tooling merge are translated function by function from the source.
-/

namespace YoLocal

/-- JSON-like payload values.  Numbers are modelled as rationals (the merge
logic never computes with numbers, it only copies and compares them);
arrays are not needed by any modelled code path. -/
inductive Value where
  | null : Value
  | bool (b : Bool) : Value
  | num (q : ℚ) : Value
  | str (s : String) : Value
  | obj (fields : List (String × Value)) : Value

/-- Python test for None: value is None. -/
def Value.isNull : Value → Bool
  | .null => true
  | _ => false

/-- Python test for a mapping: isinstance(value, dict). -/
def Value.isObj : Value → Bool
  | .obj _ => true
  | _ => false

/-- Python truthiness of a payload value. -/
def Value.truthy : Value → Bool
  | .null => false
  | .bool b => b
  | .num q => !(decide (q = 0))
  | .str s => !(decide (s = ""))
  | .obj fs => !fs.isEmpty

/-- A Python dict with string keys, as an association list. -/
abbrev Dict := List (String × Value)

/-- Python get: value of the first entry with key k, if any. -/
def get? {α : Type} : List (String × α) → String → Option α
  | [], _ => none
  | (k1, v) :: t, k => if k1 = k then some v else get? t k

/-- Python item assignment: replace the value in place if the key is
present, append a new entry at the end otherwise. -/
def insert {α : Type} : List (String × α) → String → α → List (String × α)
  | [], k, v => [(k, v)]
  | (k1, v1) :: t, k, v => if k1 = k then (k, v) :: t else (k1, v1) :: insert t k v

/-- Python pop with default: drop the first entry with key k. -/
def erase {α : Type} : List (String × α) → String → List (String × α)
  | [], _ => []
  | (k1, v1) :: t, k => if k1 = k then t else (k1, v1) :: erase t k

/-- Python dict unpacking / update: overlay b over a, entry by entry. -/
def union {α : Type} (a b : List (String × α)) : List (String × α) :=
  b.foldl (fun acc kv => insert acc kv.1 kv.2) a

/-- The key list of a dict. -/
def keys {α : Type} (d : List (String × α)) : List String := d.map Prod.fst

/-- Real Python dicts never hold a key twice. -/
def NodupKeys {α : Type} (d : List (String × α)) : Prop := (keys d).Nodup

/-- Descriptor of a YoLink device (api/device.py). -/
structure Device where
  device_id : String
  name : String
  token : String
  device_type : String
  display_type : String
  model : Option String

/-- An event received from a device (api/mqtt.py, DeviceEvent), with the
payload data kept in raw JSON shape. -/
structure DeviceEvent where
  device_id : String
  event : String
  data : Value

/-- Keys never folded into the nested state mapping: the literal key set
used by both coordinator.py and yolink_tooling_common.py. -/
def skipKey (k : String) : Bool := k = "state" || k = "online" || k = "reportAt"

/-- The THSensor null-skip of coordinator.py: a null temperature, humidity,
mode or version is treated as not reported. -/
def thNullSkip (k : String) (v : Value) : Bool :=
  v.isNull && (k = "temperature" || k = "humidity" || k = "mode" || k = "version")

/-- Whether the THSensor flat-key folding loop copies an entry. -/
def thPass (k : String) (v : Value) : Bool := !skipKey k && !thNullSkip k v

/-- The THSensor flat-key folding loop of coordinator.py. -/
def foldFlatTH (base : Dict) (event_data : Dict) : Dict :=
  event_data.foldl (fun acc kv => if thPass kv.1 kv.2 then insert acc kv.1 kv.2 else acc) base

/-- Overlay the incoming nested state onto base: update with the incoming
mapping, or set the state sub-field to an incoming non-null scalar.  This
is the shared nested-state step of the THSensor branch in coordinator.py
and of merge_state in yolink_tooling_common.py; a null value behaves like
an absent key because the Python dict get returns None for both. -/
def thStateStep (base : Dict) (event_data : Dict) : Dict :=
  match get? event_data "state" with
  | some (Value.obj evf) => union base evf
  | some v => if v.isNull then base else insert base "state" v
  | none => base

/-- The start of the merged nested-state mapping: a copy of the nested
state mapping of the existing snapshot when it is a mapping, the empty
mapping otherwise (coordinator.py lines 122-124). -/
def thMergedBase (existing_state : Dict) : Dict :=
  match get? existing_state "state" with
  | some (Value.obj exf) => union [] exf
  | _ => []

/-- The THSensor merge of YoLocalCoordinator._on_device_event
(coordinator.py lines 113-145). -/
def mergeTH (existing_state event_data : Dict) : Dict :=
  let new_state := union existing_state event_data
  let merged : Dict :=
    foldFlatTH (thStateStep (thMergedBase existing_state) event_data) event_data
  if merged.isEmpty then new_state else insert new_state "state" (Value.obj merged)

/-- The general-family merge of YoLocalCoordinator._on_device_event
(coordinator.py lines 147-169): overlay, then reconcile the state key when
present on both sides, following the branch order of the source. -/
def mergeGeneral (existing_state event_data : Dict) : Dict :=
  let new_state := union existing_state event_data
  match get? existing_state "state", get? event_data "state" with
  | some exv, some evv =>
    match exv, evv with
    | Value.obj exf, Value.obj evf => insert new_state "state" (Value.obj (union exf evf))
    | _, Value.obj evf => insert new_state "state" (Value.obj evf)
    | Value.obj exf, _ => insert new_state "state" (Value.obj (insert exf "state" evv))
    | _, _ => new_state
  | _, _ => new_state

/-- One step of YoLocalCoordinator._on_device_event: returns the updated
store and whether an update was dispatched to subscribers, or none when the
handler would raise a TypeError (overlaying a non-mapping event data in the
general branch). -/
def onDeviceEvent (devices : List (String × Device)) (states : List (String × Dict))
    (ev : DeviceEvent) : Option (List (String × Dict) × Bool) :=
  match get? devices ev.device_id with
  | none => some (states, false)
  | some device =>
    if device.device_type = "THSensor" then
      let existing_state := (get? states ev.device_id).getD []
      let event_data :=
        match ev.data with
        | Value.obj fs => fs
        | _ => []
      some (insert states ev.device_id (mergeTH existing_state event_data), true)
    else
      match ev.data with
      | Value.obj event_data =>
        let existing_state := (get? states ev.device_id).getD []
        some (insert states ev.device_id (mergeGeneral existing_state event_data), true)
      | _ => none

/-- One step of the flat-key loop in merge_state of
yolink_tooling_common.py: fold the entry into the nested mapping and pop
its key from the top level. -/
def msStep (acc : Dict × Dict) (kv : String × Value) : Dict × Dict :=
  if skipKey kv.1 then acc else (insert acc.1 kv.1 kv.2, erase acc.2 kv.1)

/-- merge_state of yolink_tooling_common.py (lines 64-90). -/
def merge_state (existing_state event_data : Dict) : Dict :=
  let new_state := union existing_state event_data
  match get? existing_state "state" with
  | some (Value.obj exf) =>
    let p := event_data.foldl msStep (thStateStep (union [] exf) event_data, new_state)
    insert p.2 "state" (Value.obj p.1)
  | _ =>
    match get? event_data "state" with
    | some (Value.obj evf) => insert new_state "state" (Value.obj (union [] evf))
    | _ => new_state

/-- Raw data selection of normalize_event_payload
(yolink_tooling_common.py lines 41-48): top-level data if present and
non-null; else the data sub-key of a params mapping (the whole params
mapping when the sub-key is absent); else a wrap of the top-level state
value.  A null value behaves like an absent key where the source uses the
Python dict get, which returns None for both. -/
def select_raw_data (payload : Dict) : Option Value :=
  let raw1 : Option Value :=
    match get? payload "data" with
    | some v => if v.isNull then none else some v
    | none => none
  let raw2 : Option Value :=
    match raw1 with
    | some v => some v
    | none =>
      match get? payload "params" with
      | some (Value.obj params) =>
        match get? params "data" with
        | some v => if v.isNull then none else some v
        | none => some (Value.obj params)
      | _ => none
  match raw2 with
  | some v => some v
  | none =>
    match get? payload "state" with
    | some v => some (Value.obj [("state", v)])
    | none => none

/-- The event data shaping of normalize_event_payload (lines 50-55): copy a
mapping, wrap a non-null scalar as a state field, default to the empty
mapping. -/
def wrap_event_data (raw : Option Value) : Dict :=
  match raw with
  | some (Value.obj fs) => union [] fs
  | some v => [("state", v)]
  | none => []

/-- The reportAt/online augmentation at the end of normalize_event_payload
(lines 57-61).  The time copy is guarded by Python truthiness of the time
value; the online copy is guarded by key presence. -/
def augment_event_data (payload : Dict) (event_data : Dict) : Dict :=
  let d1 :=
    if (get? event_data "reportAt").isNone
        && ((get? payload "time").getD Value.null).truthy then
      insert event_data "reportAt" ((get? payload "time").getD Value.null)
    else event_data
  if (get? d1 "online").isNone && (get? payload "online").isSome then
    insert d1 "online" ((get? payload "online").getD Value.null)
  else d1

/-- normalize_event_payload of yolink_tooling_common.py (lines 38-61). -/
def normalize_event_payload (payload : Dict) : Value × Dict :=
  ((get? payload "deviceId").getD (Value.str ""),
   augment_event_data payload (wrap_event_data (select_raw_data payload)))

/-- model_num_from_app_eui of yolink_tooling_common.py: the 4-character
model code at offset 6 of the hardware identity string, derivable only from
a truthy string of length at least 10. -/
def model_num_from_app_eui (app_eui : Option String) : Option String :=
  match app_eui with
  | some s =>
    if s ≠ "" ∧ 10 ≤ s.length then some (String.mk ((s.toList.drop 6).take 4)) else none
  | none => none

/-- normalize_display_type of yolink_tooling_common.py. -/
def normalize_display_type (raw_type : String) (app_eui : Option String) : String :=
  let model_num := model_num_from_app_eui app_eui
  if model_num = some "7706" then "TiltSensor"
  else if model_num = some "8004" then "TempSensor"
  else raw_type

/-- The model / display-type derivation inside Device.from_api
(api/device.py lines 20-43), as the pair (model, display_type) computed
from the discovery appEui and the raw reported type. -/
def fromApiModelDisplay (app_eui : Option String) (raw_type : String) :
    Option String × String :=
  match app_eui with
  | none => (none, raw_type)
  | some s =>
    if s ≠ "" then
      if 10 ≤ s.length then
        let model_num := String.mk ((s.toList.drop 6).take 4)
        (some ("YS" ++ model_num ++ "-UC"),
          if model_num = "7706" then "TiltSensor"
          else if model_num = "8004" then "TempSensor"
          else raw_type)
      else (none, raw_type)
    else (none, raw_type)

/-- Device.from_api (api/device.py) on a discovery record with the given
fields. -/
def Device.from_api (device_id name token raw_type : String)
    (app_eui : Option String) : Device :=
  let md := fromApiModelDisplay app_eui raw_type
  { device_id := device_id, name := name, token := token,
    device_type := raw_type, display_type := md.2, model := md.1 }

/-- YoLocalEntity.available (entity.py lines 54-77).  The datetime parser
and the current time are abstract parameters: parse returns the parsed
timestamp in seconds, or none when parsing fails or raises; 43200 seconds
is the 12-hour staleness window. -/
def availableWith (superAvailable : Bool) (state : Dict)
    (parse : Value → Option Int) (now : Int) : Bool :=
  if !superAvailable then false
  else if !((get? state "online").getD (Value.bool true)).truthy then false
  else
    match get? state "reportAt" with
    | some r =>
      if r.truthy then
        match parse r with
        | some last_report => if now - last_report > 43200 then false else true
        | none => true
      else true
    | none => true

/-- Errors surfaced during startup. -/
inductive StartupErr where
  | authError : StartupErr
  | connectionError : StartupErr
  | otherError : StartupErr

/-- Outcomes of the awaited startup steps, abstracting the network: each
field is the result the corresponding call would produce if awaited. -/
structure StartupEnv where
  tokenResult : Except StartupErr Unit
  devicesResult : Except StartupErr Unit
  mqttTokenResult : Except StartupErr Unit
  mqttConnectedInTime : Bool

/-- YoLinkMQTTClient.connect (api/mqtt.py lines 73-88): a connection that
is not established within the 10 second wait raises a connection error. -/
def mqttClientConnect (env : StartupEnv) : Except StartupErr Unit :=
  if env.mqttConnectedInTime then Except.ok () else Except.error StartupErr.connectionError

/-- YoLocalCoordinator._connect_mqtt (coordinator.py lines 85-102): fetch a
token (uncaught), then connect inside a try block that catches and logs
every exception. -/
def connectMqtt (env : StartupEnv) : Except StartupErr Unit := do
  env.mqttTokenResult
  match mqttClientConnect env with
  | Except.ok _ => pure ()
  | Except.error _ => pure ()

/-- YoLocalCoordinator._async_setup (coordinator.py lines 62-76): fetch
devices, then connect MQTT.  Per-device state fetch failures are swallowed
inside the loop and do not affect control flow. -/
def asyncSetup (env : StartupEnv) : Except StartupErr Unit := do
  env.devicesResult
  connectMqtt env

/-- create_coordinator (coordinator.py lines 180-217): on any escaping
exception the session is closed and the error re-raised.  Returns the
result together with whether the session was closed. -/
def create_coordinator (env : StartupEnv) : Except StartupErr Unit × Bool :=
  match (do env.tokenResult; asyncSetup env : Except StartupErr Unit) with
  | Except.ok u => (Except.ok u, false)
  | Except.error e => (Except.error e, true)

end YoLocal

namespace YoLocal

theorem keys_cons {α : Type} (k1 : String) (v1 : α) (t : List (String × α)) :
    keys ((k1, v1) :: t) = k1 :: keys t := rfl

theorem keys_append {α : Type} (a b : List (String × α)) :
    keys (a ++ b) = keys a ++ keys b := List.map_append _ _ _

theorem nodupKeys_cons {α : Type} {k1 : String} {v1 : α} {t : List (String × α)} :
    NodupKeys ((k1, v1) :: t) ↔ k1 ∉ keys t ∧ NodupKeys t := by
  unfold NodupKeys
  rw [keys_cons, List.nodup_cons]

theorem get?_insert {α : Type} (d : List (String × α)) (k k2 : String) (v : α) :
    get? (insert d k v) k2 = if k = k2 then some v else get? d k2 := by
  induction d with
  | nil => rfl
  | cons hd t ih =>
    obtain ⟨k1, v1⟩ := hd
    by_cases h1 : k1 = k
    · subst h1
      simp only [insert, if_pos rfl, get?]
      by_cases h2 : k1 = k2 <;> simp [h2]
    · simp only [insert, if_neg h1, get?, ih]
      by_cases h2 : k1 = k2
      · subst h2
        have hk : k ≠ k1 := fun h => h1 h.symm
        simp [hk]
      · simp [h2]

theorem get?_insert_self {α : Type} (d : List (String × α)) (k : String) (v : α) :
    get? (insert d k v) k = some v := by
  simp [get?_insert]

theorem get?_insert_ne {α : Type} (d : List (String × α)) {k k2 : String} (v : α)
    (h : k ≠ k2) : get? (insert d k v) k2 = get? d k2 := by
  simp [get?_insert, h]

theorem mem_keys_of_get? {α : Type} {d : List (String × α)} {k : String} {v : α}
    (h : get? d k = some v) : k ∈ keys d := by
  induction d with
  | nil => simp [get?] at h
  | cons hd t ih =>
    obtain ⟨k1, v1⟩ := hd
    rw [keys_cons]
    by_cases h1 : k1 = k
    · exact h1 ▸ List.mem_cons_self _ _
    · simp only [get?, if_neg h1] at h
      exact List.mem_cons_of_mem _ (ih h)

theorem get?_eq_none_of_not_mem {α : Type} {d : List (String × α)} {k : String}
    (h : k ∉ keys d) : get? d k = none := by
  induction d with
  | nil => rfl
  | cons hd t ih =>
    obtain ⟨k1, v1⟩ := hd
    rw [keys_cons] at h
    simp only [List.mem_cons] at h
    push_neg at h
    simp only [get?, if_neg fun hh : k1 = k => h.1 hh.symm]
    exact ih h.2

theorem get?_isSome_of_mem {α : Type} {d : List (String × α)} {k : String}
    (h : k ∈ keys d) : ∃ v, get? d k = some v := by
  induction d with
  | nil => simp [keys] at h
  | cons hd t ih =>
    obtain ⟨k1, v1⟩ := hd
    by_cases h1 : k1 = k
    · exact ⟨v1, by simp [get?, h1]⟩
    · rw [keys_cons] at h
      simp only [List.mem_cons] at h
      rcases h with h | h
      · exact absurd h.symm h1
      · obtain ⟨v, hv⟩ := ih h
        exact ⟨v, by simp [get?, if_neg h1, hv]⟩

theorem keys_insert_of_mem {α : Type} {d : List (String × α)} {k : String} (v : α)
    (h : k ∈ keys d) : keys (insert d k v) = keys d := by
  induction d with
  | nil => simp [keys] at h
  | cons hd t ih =>
    obtain ⟨k1, v1⟩ := hd
    by_cases h1 : k1 = k
    · subst h1
      simp [insert, keys_cons]
    · rw [keys_cons] at h
      simp only [List.mem_cons] at h
      rcases h with h | h
      · exact absurd h.symm h1
      · simp only [insert, if_neg h1, keys_cons, ih h]

theorem keys_insert_of_not_mem {α : Type} {d : List (String × α)} {k : String} (v : α)
    (h : k ∉ keys d) : keys (insert d k v) = keys d ++ [k] := by
  induction d with
  | nil => simp [insert, keys]
  | cons hd t ih =>
    obtain ⟨k1, v1⟩ := hd
    rw [keys_cons] at h
    simp only [List.mem_cons] at h
    push_neg at h
    simp only [insert, if_neg fun hh : k1 = k => h.1 hh.symm, keys_cons, ih h.2]
    rfl

theorem mem_keys_insert_self {α : Type} (d : List (String × α)) (k : String) (v : α) :
    k ∈ keys (insert d k v) := by
  by_cases h : k ∈ keys d
  · rw [keys_insert_of_mem v h]; exact h
  · rw [keys_insert_of_not_mem v h]; simp

theorem mem_keys_insert_of_mem {α : Type} {d : List (String × α)} {k2 : String}
    (k : String) (v : α) (h : k2 ∈ keys d) : k2 ∈ keys (insert d k v) := by
  by_cases hm : k ∈ keys d
  · rw [keys_insert_of_mem v hm]; exact h
  · rw [keys_insert_of_not_mem v hm]; simp [h]

theorem nodupKeys_insert {α : Type} {d : List (String × α)} (k : String) (v : α)
    (h : NodupKeys d) : NodupKeys (insert d k v) := by
  by_cases hm : k ∈ keys d
  · unfold NodupKeys
    rw [keys_insert_of_mem v hm]
    exact h
  · unfold NodupKeys
    rw [keys_insert_of_not_mem v hm]
    simpa [List.nodup_append] using ⟨h, fun hh => hm hh⟩

theorem insert_eq_self_of_get? {α : Type} {d : List (String × α)} {k : String} {v : α}
    (h : get? d k = some v) : insert d k v = d := by
  induction d with
  | nil => simp [get?] at h
  | cons hd t ih =>
    obtain ⟨k1, v1⟩ := hd
    by_cases h1 : k1 = k
    · subst h1
      simp [get?] at h
      simp [insert, h]
    · simp only [get?, if_neg h1] at h
      simp only [insert, if_neg h1, ih h]

theorem insert_insert_self {α : Type} (d : List (String × α)) (k : String) (v : α) :
    insert (insert d k v) k v = insert d k v :=
  insert_eq_self_of_get? (get?_insert_self d k v)

theorem insert_ne_nil {α : Type} (d : List (String × α)) (k : String) (v : α) :
    insert d k v ≠ [] := by
  cases d with
  | nil => simp [insert]
  | cons hd t =>
    obtain ⟨k1, v1⟩ := hd
    by_cases h1 : k1 = k <;> simp [insert, h1]

theorem union_cons {α : Type} (a : List (String × α)) (k : String) (v : α)
    (t : List (String × α)) : union a ((k, v) :: t) = union (insert a k v) t := rfl

theorem union_nil_right {α : Type} (a : List (String × α)) : union a [] = a := rfl

theorem mem_keys_union_left {α : Type} {a : List (String × α)} {k : String}
    (b : List (String × α)) (h : k ∈ keys a) : k ∈ keys (union a b) := by
  induction b generalizing a with
  | nil => exact h
  | cons hd t ih =>
    obtain ⟨k1, v1⟩ := hd
    rw [union_cons]
    exact ih (mem_keys_insert_of_mem k1 v1 h)

theorem mem_keys_union_right {α : Type} (a : List (String × α)) {b : List (String × α)}
    {k : String} (h : k ∈ keys b) : k ∈ keys (union a b) := by
  induction b generalizing a with
  | nil => simp [keys] at h
  | cons hd t ih =>
    obtain ⟨k1, v1⟩ := hd
    rw [union_cons]
    rw [keys_cons] at h
    simp only [List.mem_cons] at h
    rcases h with h | h
    · subst h
      exact mem_keys_union_left t (mem_keys_insert_self a k v1)
    · exact ih (insert a k1 v1) h

theorem nodupKeys_union {α : Type} {a : List (String × α)} (b : List (String × α))
    (h : NodupKeys a) : NodupKeys (union a b) := by
  induction b generalizing a with
  | nil => exact h
  | cons hd t ih =>
    obtain ⟨k1, v1⟩ := hd
    rw [union_cons]
    exact ih (nodupKeys_insert k1 v1 h)

theorem get?_union {α : Type} (a : List (String × α)) {b : List (String × α)}
    (k : String) (hb : NodupKeys b) :
    get? (union a b) k = (get? b k).orElse (fun _ => get? a k) := by
  induction b generalizing a with
  | nil => simp [union_nil_right, get?, Option.orElse]
  | cons hd t ih =>
    obtain ⟨k1, v1⟩ := hd
    obtain ⟨hb1, hbt⟩ := nodupKeys_cons.mp hb
    rw [union_cons, ih (insert a k1 v1) hbt]
    by_cases h1 : k1 = k
    · subst h1
      rw [get?_eq_none_of_not_mem hb1]
      simp [get?, get?_insert_self, Option.orElse]
    · simp only [get?, if_neg h1, get?_insert_ne a v1 h1]

theorem keys_union_of_subset {α : Type} {a b : List (String × α)}
    (h : ∀ k ∈ keys b, k ∈ keys a) : keys (union a b) = keys a := by
  induction b generalizing a with
  | nil => rfl
  | cons hd t ih =>
    obtain ⟨k1, v1⟩ := hd
    rw [union_cons]
    have hk1 : k1 ∈ keys a := h k1 (by rw [keys_cons]; exact List.mem_cons_self _ _)
    rw [ih fun k hk =>
      mem_keys_insert_of_mem k1 v1 (h k (by rw [keys_cons]; exact List.mem_cons_of_mem _ hk))]
    exact keys_insert_of_mem v1 hk1

theorem insert_append_of_not_mem {α : Type} {d : List (String × α)} {k : String} (v : α)
    (h : k ∉ keys d) : insert d k v = d ++ [(k, v)] := by
  induction d with
  | nil => simp [insert]
  | cons hd t ih =>
    obtain ⟨k1, v1⟩ := hd
    rw [keys_cons] at h
    simp only [List.mem_cons] at h
    push_neg at h
    simp [insert, if_neg fun hh : k1 = k => h.1 hh.symm, ih h.2]

theorem union_eq_append_of_disjoint {α : Type} (a : List (String × α))
    {b : List (String × α)}
    (hd : ∀ k ∈ keys b, k ∉ keys a) (hb : NodupKeys b) : union a b = a ++ b := by
  induction b generalizing a with
  | nil => simp [union_nil_right]
  | cons hd1 t ih =>
    obtain ⟨k1, v1⟩ := hd1
    have hk1 : k1 ∉ keys a := hd k1 (by rw [keys_cons]; exact List.mem_cons_self _ _)
    obtain ⟨hb1, hbt⟩ := nodupKeys_cons.mp hb
    rw [union_cons, insert_append_of_not_mem v1 hk1]
    rw [ih (a ++ [(k1, v1)]) ?_ hbt]
    · simp
    · intro k hk
      have hka : k ∉ keys a := hd k (by rw [keys_cons]; exact List.mem_cons_of_mem _ hk)
      have hkk1 : k ≠ k1 := fun hh => hb1 (hh ▸ hk)
      intro hmem
      rw [keys_append] at hmem
      rcases List.mem_append.mp hmem with h | h
      · exact hka h
      · have : k = k1 := by simpa [keys] using h
        exact hkk1 this

theorem union_nil_of_nodup {α : Type} {b : List (String × α)} (hb : NodupKeys b) :
    union [] b = b := by
  rw [union_eq_append_of_disjoint [] (fun k _ => by simp [keys]) hb]
  simp

theorem dict_ext {α : Type} {d1 d2 : List (String × α)} (h1 : NodupKeys d1)
    (hk : keys d1 = keys d2) (hg : ∀ k, get? d1 k = get? d2 k) : d1 = d2 := by
  induction d1 generalizing d2 with
  | nil =>
    cases d2 with
    | nil => rfl
    | cons hd t => simp [keys] at hk
  | cons hd t ih =>
    obtain ⟨k1, v1⟩ := hd
    cases d2 with
    | nil => simp [keys] at hk
    | cons hd2 t2 =>
      obtain ⟨k2, v2⟩ := hd2
      rw [keys_cons, keys_cons, List.cons.injEq] at hk
      obtain ⟨hk12, hkt⟩ := hk
      subst hk12
      have hv : v1 = v2 := by
        have hgk := hg k1
        simp only [get?, if_pos rfl] at hgk
        exact Option.some.inj hgk
      subst hv
      obtain ⟨h1m, h1t⟩ := nodupKeys_cons.mp h1
      have h2m : k1 ∉ keys t2 := hkt ▸ h1m
      refine congrArg _ (ih h1t hkt fun k => ?_)
      by_cases hkk : k1 = k
      · subst hkk
        rw [get?_eq_none_of_not_mem h1m, get?_eq_none_of_not_mem h2m]
      · have hgk := hg k
        simpa only [get?, if_neg hkk] using hgk

theorem union_self {α : Type} {a : List (String × α)} (ha : NodupKeys a) :
    union a a = a := by
  refine dict_ext (nodupKeys_union a ha) (keys_union_of_subset fun k hk => hk) fun k => ?_
  rw [get?_union a k ha]
  cases get? a k <;> simp [Option.orElse]

theorem union_union {α : Type} {a b : List (String × α)} (ha : NodupKeys a)
    (hb : NodupKeys b) : union (union a b) b = union a b := by
  refine dict_ext (nodupKeys_union b (nodupKeys_union b ha))
    (keys_union_of_subset fun k hk => mem_keys_union_right a hk) fun k => ?_
  rw [get?_union _ k hb, get?_union _ k hb]
  cases get? b k <;> simp [Option.orElse]

theorem insert_union_absorb {α : Type} {a b : List (String × α)} (k : String) (x : α)
    (ha : NodupKeys a) (hb : NodupKeys b) :
    insert (union (insert (union a b) k x) b) k x = insert (union a b) k x := by
  have hf : NodupKeys (insert (union a b) k x) :=
    nodupKeys_insert k x (nodupKeys_union b ha)
  refine dict_ext (nodupKeys_insert k x (nodupKeys_union b hf)) ?_ fun k2 => ?_
  · have hbsub : ∀ k2 ∈ keys b, k2 ∈ keys (insert (union a b) k x) := fun k2 hk =>
      mem_keys_insert_of_mem k x (mem_keys_union_right a hk)
    have hku : keys (union (insert (union a b) k x) b) = keys (insert (union a b) k x) :=
      keys_union_of_subset hbsub
    rw [keys_insert_of_mem x (by rw [hku]; exact mem_keys_insert_self _ k x), hku]
  · by_cases hk2 : k = k2
    · subst hk2
      rw [get?_insert_self, get?_insert_self]
    · rw [get?_insert_ne _ x hk2, get?_insert_ne _ x hk2]
      rw [get?_union _ k2 hb]
      simp only [get?_insert_ne _ x hk2]
      simp only [get?_union _ k2 hb]
      cases get? b k2 <;> simp [Option.orElse]

theorem get?_erase_self {α : Type} {d : List (String × α)} (k : String)
    (hd : NodupKeys d) : get? (erase d k) k = none := by
  induction d with
  | nil => rfl
  | cons hd1 t ih =>
    obtain ⟨k1, v1⟩ := hd1
    obtain ⟨hm, ht⟩ := nodupKeys_cons.mp hd
    by_cases h1 : k1 = k
    · subst h1
      simp only [erase, if_pos rfl]
      exact get?_eq_none_of_not_mem hm
    · simp only [erase, if_neg h1, get?, if_neg h1]
      exact ih ht

theorem get?_erase_ne {α : Type} (d : List (String × α)) {k k2 : String}
    (h : k ≠ k2) : get? (erase d k) k2 = get? d k2 := by
  induction d with
  | nil => rfl
  | cons hd1 t ih =>
    obtain ⟨k1, v1⟩ := hd1
    by_cases h1 : k1 = k
    · subst h1
      simp [erase, get?, if_neg fun hh : k1 = k2 => h hh]
    · simp [erase, if_neg h1, get?, ih]

theorem nodupKeys_erase {α : Type} {d : List (String × α)} (k : String)
    (hd : NodupKeys d) : NodupKeys (erase d k) := by
  induction d with
  | nil => exact hd
  | cons hd1 t ih =>
    obtain ⟨k1, v1⟩ := hd1
    obtain ⟨hm, ht⟩ := nodupKeys_cons.mp hd
    by_cases h1 : k1 = k
    · subst h1
      simpa [erase] using ht
    · have hme : k1 ∉ keys (erase t k) := by
        intro hk
        obtain ⟨v, hv⟩ := get?_isSome_of_mem hk
        rw [get?_erase_ne t fun hh : k = k1 => h1 hh.symm] at hv
        exact hm (mem_keys_of_get? hv)
      simp only [erase, if_neg h1]
      exact nodupKeys_cons.mpr ⟨hme, ih ht⟩

theorem thPass_state (v : Value) : thPass "state" v = false := rfl

theorem thPass_online (v : Value) : thPass "online" v = false := rfl

theorem thPass_reportAt (v : Value) : thPass "reportAt" v = false := rfl

theorem foldFlatTH_cons (base : Dict) (k : String) (v : Value) (t : Dict) :
    foldFlatTH base ((k, v) :: t)
      = foldFlatTH (if thPass k v then insert base k v else base) t := rfl

theorem foldFlatTH_nil (base : Dict) : foldFlatTH base [] = base := rfl

theorem nodupKeys_foldFlatTH {base : Dict} (ed : Dict) (h : NodupKeys base) :
    NodupKeys (foldFlatTH base ed) := by
  induction ed generalizing base with
  | nil => exact h
  | cons hd t ih =>
    obtain ⟨k, v⟩ := hd
    rw [foldFlatTH_cons]
    by_cases hp : thPass k v = true
    · rw [if_pos hp]
      exact ih (nodupKeys_insert k v h)
    · rw [if_neg hp]
      exact ih h

theorem get?_foldFlatTH_of_none {ed : Dict} {k : String} (base : Dict)
    (h : get? ed k = none) : get? (foldFlatTH base ed) k = get? base k := by
  induction ed generalizing base with
  | nil => rfl
  | cons hd t ih =>
    obtain ⟨k1, v1⟩ := hd
    have h1 : k1 ≠ k := by
      intro hh
      simp [get?, hh] at h
    simp only [get?, if_neg h1] at h
    rw [foldFlatTH_cons]
    by_cases hp : thPass k1 v1 = true
    · rw [if_pos hp, ih _ h, get?_insert_ne base v1 h1]
    · rw [if_neg hp, ih _ h]

theorem get?_foldFlatTH_of_pass {ed : Dict} {k : String} {v : Value} (base : Dict)
    (hed : NodupKeys ed) (h : get? ed k = some v) (hp : thPass k v = true) :
    get? (foldFlatTH base ed) k = some v := by
  induction ed generalizing base with
  | nil => simp [get?] at h
  | cons hd t ih =>
    obtain ⟨k1, v1⟩ := hd
    obtain ⟨hm, ht⟩ := nodupKeys_cons.mp hed
    rw [foldFlatTH_cons]
    by_cases h1 : k1 = k
    · subst h1
      simp only [get?, if_pos rfl] at h
      obtain rfl := Option.some.inj h
      rw [if_pos hp, get?_foldFlatTH_of_none _ (get?_eq_none_of_not_mem hm),
        get?_insert_self]
    · simp only [get?, if_neg h1] at h
      by_cases hp1 : thPass k1 v1 = true
      · rw [if_pos hp1]
        exact ih _ ht h
      · rw [if_neg hp1]
        exact ih _ ht h

theorem get?_foldFlatTH_of_skip {ed : Dict} {k : String} {v : Value} (base : Dict)
    (hed : NodupKeys ed) (h : get? ed k = some v) (hp : thPass k v = false) :
    get? (foldFlatTH base ed) k = get? base k := by
  induction ed generalizing base with
  | nil => simp [get?] at h
  | cons hd t ih =>
    obtain ⟨k1, v1⟩ := hd
    obtain ⟨hm, ht⟩ := nodupKeys_cons.mp hed
    rw [foldFlatTH_cons]
    by_cases h1 : k1 = k
    · subst h1
      simp only [get?, if_pos rfl] at h
      obtain rfl := Option.some.inj h
      rw [if_neg (by simp [hp]), get?_foldFlatTH_of_none _ (get?_eq_none_of_not_mem hm)]
    · simp only [get?, if_neg h1] at h
      by_cases hp1 : thPass k1 v1 = true
      · rw [if_pos hp1, ih _ ht h, get?_insert_ne base v1 h1]
      · rw [if_neg hp1]
        exact ih _ ht h

theorem get?_foldFlatTH_fall {ed : Dict} {k : String} (base : Dict)
    (hed : NodupKeys ed) (hfall : ∀ v, get? ed k = some v → thPass k v = false) :
    get? (foldFlatTH base ed) k = get? base k := by
  cases hk : get? ed k with
  | none => exact get?_foldFlatTH_of_none base hk
  | some v => exact get?_foldFlatTH_of_skip base hed hk (hfall v hk)

theorem mem_keys_foldFlatTH_of_mem_base {base : Dict} {k : String} (ed : Dict)
    (h : k ∈ keys base) : k ∈ keys (foldFlatTH base ed) := by
  induction ed generalizing base with
  | nil => exact h
  | cons hd t ih =>
    obtain ⟨k1, v1⟩ := hd
    rw [foldFlatTH_cons]
    by_cases hp : thPass k1 v1 = true
    · rw [if_pos hp]
      exact ih (mem_keys_insert_of_mem k1 v1 h)
    · rw [if_neg hp]
      exact ih h

theorem mem_keys_foldFlatTH_of_pass (base : Dict) {ed : Dict} {k : String}
    {v : Value} (hmem : (k, v) ∈ ed) (hp : thPass k v = true) :
    k ∈ keys (foldFlatTH base ed) := by
  induction ed generalizing base with
  | nil => simp at hmem
  | cons hd t ih =>
    obtain ⟨k1, v1⟩ := hd
    rw [foldFlatTH_cons]
    rcases List.mem_cons.mp hmem with h | h
    · obtain ⟨rfl, rfl⟩ := Prod.mk.inj h.symm
      rw [if_pos hp]
      exact mem_keys_foldFlatTH_of_mem_base t (mem_keys_insert_self base k1 v1)
    · by_cases hp1 : thPass k1 v1 = true
      · rw [if_pos hp1]
        exact ih _ h
      · rw [if_neg hp1]
        exact ih _ h

theorem keys_foldFlatTH_of_sub {base ed : Dict}
    (h : ∀ kv ∈ ed, thPass kv.1 kv.2 = true → kv.1 ∈ keys base) :
    keys (foldFlatTH base ed) = keys base := by
  induction ed generalizing base with
  | nil => rfl
  | cons hd t ih =>
    obtain ⟨k1, v1⟩ := hd
    rw [foldFlatTH_cons]
    by_cases hp : thPass k1 v1 = true
    · rw [if_pos hp]
      have hk1 : k1 ∈ keys base := h (k1, v1) (List.mem_cons_self _ _) hp
      rw [ih fun kv hkv hpkv => by
        rw [keys_insert_of_mem v1 hk1]
        exact h kv (List.mem_cons_of_mem _ hkv) hpkv]
      exact keys_insert_of_mem v1 hk1
    · rw [if_neg hp]
      exact ih fun kv hkv hpkv => h kv (List.mem_cons_of_mem _ hkv) hpkv

theorem foldFlatTH_of_no_pass {base ed : Dict}
    (h : ∀ kv ∈ ed, thPass kv.1 kv.2 = false) : foldFlatTH base ed = base := by
  induction ed generalizing base with
  | nil => rfl
  | cons hd t ih =>
    obtain ⟨k1, v1⟩ := hd
    rw [foldFlatTH_cons]
    rw [if_neg (by simp [h (k1, v1) (List.mem_cons_self _ _)])]
    exact ih fun kv hkv => h kv (List.mem_cons_of_mem _ hkv)

theorem thStateStep_none {ed : Dict} (base : Dict) (h : get? ed "state" = none) :
    thStateStep base ed = base := by
  unfold thStateStep
  rw [h]

theorem thStateStep_null {ed : Dict} (base : Dict)
    (h : get? ed "state" = some Value.null) : thStateStep base ed = base := by
  unfold thStateStep
  rw [h]
  rfl

theorem thStateStep_obj {ed : Dict} {evf : Dict} (base : Dict)
    (h : get? ed "state" = some (Value.obj evf)) :
    thStateStep base ed = union base evf := by
  unfold thStateStep
  rw [h]

theorem thStateStep_scalar {ed : Dict} {v : Value} (base : Dict)
    (h : get? ed "state" = some v) (hobj : v.isObj = false) (hnull : v.isNull = false) :
    thStateStep base ed = insert base "state" v := by
  unfold thStateStep
  rw [h]
  cases v with
  | null => simp [Value.isNull] at hnull
  | obj fs => simp [Value.isObj] at hobj
  | bool b => rfl
  | num q => rfl
  | str s => rfl

theorem nodupKeys_thStateStep {base : Dict} (ed : Dict) (h : NodupKeys base) :
    NodupKeys (thStateStep base ed) := by
  unfold thStateStep
  cases hs : get? ed "state" with
  | none => exact h
  | some v =>
    cases v with
    | obj evf => exact nodupKeys_union evf h
    | null => exact h
    | bool b => exact nodupKeys_insert _ _ h
    | num q => exact nodupKeys_insert _ _ h
    | str s => exact nodupKeys_insert _ _ h

theorem nodupKeys_thMergedBase (e : Dict) : NodupKeys (thMergedBase e) := by
  unfold thMergedBase
  cases hs : get? e "state" with
  | none => exact List.nodup_nil
  | some v =>
    cases v with
    | obj exf => exact nodupKeys_union exf List.nodup_nil
    | null => exact List.nodup_nil
    | bool b => exact List.nodup_nil
    | num q => exact List.nodup_nil
    | str s => exact List.nodup_nil

theorem union_eq_nil {α : Type} {a b : List (String × α)} (h : union a b = []) :
    a = [] ∧ b = [] := by
  constructor
  · cases ha : a with
    | nil => rfl
    | cons hd t =>
      exfalso
      obtain ⟨k1, v1⟩ := hd
      have hmem : k1 ∈ keys a := by rw [ha, keys_cons]; exact List.mem_cons_self _ _
      have := mem_keys_union_left b hmem
      rw [h] at this
      simp [keys] at this
  · cases hb : b with
    | nil => rfl
    | cons hd t =>
      exfalso
      obtain ⟨k1, v1⟩ := hd
      have hmem : k1 ∈ keys b := by rw [hb, keys_cons]; exact List.mem_cons_self _ _
      have := mem_keys_union_right a hmem
      rw [h] at this
      simp [keys] at this

theorem base_nil_of_foldFlatTH_nil {base ed : Dict} (h : foldFlatTH base ed = []) :
    base = [] := by
  cases hb : base with
  | nil => rfl
  | cons hd t =>
    exfalso
    obtain ⟨k1, v1⟩ := hd
    have hmem : k1 ∈ keys base := by rw [hb, keys_cons]; exact List.mem_cons_self _ _
    have := mem_keys_foldFlatTH_of_mem_base ed hmem
    rw [h] at this
    simp [keys] at this

theorem no_pass_of_foldFlatTH_nil {base ed : Dict} (h : foldFlatTH base ed = []) :
    ∀ kv ∈ ed, thPass kv.1 kv.2 = false := by
  intro kv hkv
  obtain ⟨k, v⟩ := kv
  cases hpc : thPass k v with
  | false => rfl
  | true =>
    exfalso
    have := mem_keys_foldFlatTH_of_pass base hkv hpc
    rw [h] at this
    simp [keys] at this

theorem value_obj_of_isObj {v : Value} (h : v.isObj = true) :
    ∃ fs, v = Value.obj fs := by
  cases v with
  | obj fs => exact ⟨fs, rfl⟩
  | null => simp [Value.isObj] at h
  | bool b => simp [Value.isObj] at h
  | num q => simp [Value.isObj] at h
  | str s => simp [Value.isObj] at h

theorem value_null_of_isNull {v : Value} (h : v.isNull = true) : v = Value.null := by
  cases v with
  | null => rfl
  | obj fs => simp [Value.isNull] at h
  | bool b => simp [Value.isNull] at h
  | num q => simp [Value.isNull] at h
  | str s => simp [Value.isNull] at h

theorem bool_eq_false_of_ne_true {b : Bool} (h : ¬ b = true) : b = false := by
  cases b with
  | false => rfl
  | true => exact absurd rfl h

theorem foldFlatTH_thStateStep_idem {ed base : Dict} (hed : NodupKeys ed)
    (hevf : ∀ evf, get? ed "state" = some (Value.obj evf) → NodupKeys evf)
    (hbase : NodupKeys base) :
    foldFlatTH (thStateStep (foldFlatTH (thStateStep base ed) ed) ed) ed
      = foldFlatTH (thStateStep base ed) ed := by
  have hm1 : NodupKeys (thStateStep base ed) := nodupKeys_thStateStep ed hbase
  have hm2 : NodupKeys (foldFlatTH (thStateStep base ed) ed) := nodupKeys_foldFlatTH ed hm1
  have hstep_eq : ∀ k, (∀ u, get? ed k = some u → thPass k u = false) →
      get? (thStateStep (foldFlatTH (thStateStep base ed) ed) ed) k
        = get? (foldFlatTH (thStateStep base ed) ed) k := by
    intro k hfall
    have hMk : get? (foldFlatTH (thStateStep base ed) ed) k = get? (thStateStep base ed) k :=
      get?_foldFlatTH_fall _ hed hfall
    cases hs : get? ed "state" with
    | none => rw [thStateStep_none _ hs]
    | some v =>
      by_cases hvo : v.isObj = true
      · obtain ⟨evf, rfl⟩ := value_obj_of_isObj hvo
        rw [thStateStep_obj _ hs, get?_union _ k (hevf evf hs)]
        cases hw : get? evf k with
        | none => simp [Option.orElse]
        | some w =>
          rw [hMk, thStateStep_obj _ hs, get?_union base k (hevf evf hs), hw]
          simp [Option.orElse]
      · by_cases hvn : v.isNull = true
        · obtain rfl := value_null_of_isNull hvn
          rw [thStateStep_null _ hs]
        · have hvo2 := bool_eq_false_of_ne_true hvo
          have hvn2 := bool_eq_false_of_ne_true hvn
          rw [thStateStep_scalar _ hs hvo2 hvn2, get?_insert]
          by_cases hk : "state" = k
          · subst hk
            rw [if_pos rfl, hMk, thStateStep_scalar base hs hvo2 hvn2, get?_insert_self]
          · rw [if_neg hk]
  have hkeys_step : keys (thStateStep (foldFlatTH (thStateStep base ed) ed) ed)
      = keys (foldFlatTH (thStateStep base ed) ed) := by
    cases hs : get? ed "state" with
    | none => rw [thStateStep_none _ hs]
    | some v =>
      by_cases hvo : v.isObj = true
      · obtain ⟨evf, rfl⟩ := value_obj_of_isObj hvo
        rw [thStateStep_obj _ hs]
        refine keys_union_of_subset fun k hk => ?_
        obtain ⟨w, hw⟩ := get?_isSome_of_mem hk
        cases hgk : get? ed k with
        | some u =>
          cases hpu : thPass k u with
          | true => exact mem_keys_of_get? (get?_foldFlatTH_of_pass _ hed hgk hpu)
          | false =>
            have h1 : get? (foldFlatTH (thStateStep base ed) ed) k
                = get? (thStateStep base ed) k :=
              get?_foldFlatTH_of_skip _ hed hgk hpu
            have h2 : get? (thStateStep base ed) k = some w := by
              rw [thStateStep_obj _ hs, get?_union base k (hevf evf hs), hw]
              simp [Option.orElse]
            exact mem_keys_of_get? (h1.trans h2)
        | none =>
          have h1 : get? (foldFlatTH (thStateStep base ed) ed) k
              = get? (thStateStep base ed) k :=
            get?_foldFlatTH_of_none _ hgk
          have h2 : get? (thStateStep base ed) k = some w := by
            rw [thStateStep_obj _ hs, get?_union base k (hevf evf hs), hw]
            simp [Option.orElse]
          exact mem_keys_of_get? (h1.trans h2)
      · by_cases hvn : v.isNull = true
        · obtain rfl := value_null_of_isNull hvn
          rw [thStateStep_null _ hs]
        · have hvo2 := bool_eq_false_of_ne_true hvo
          have hvn2 := bool_eq_false_of_ne_true hvn
          rw [thStateStep_scalar _ hs hvo2 hvn2]
          refine keys_insert_of_mem v ?_
          have h1 : get? (foldFlatTH (thStateStep base ed) ed) "state"
              = get? (thStateStep base ed) "state" :=
            get?_foldFlatTH_fall _ hed fun u _ => thPass_state u
          have h2 : get? (thStateStep base ed) "state" = some v := by
            rw [thStateStep_scalar base hs hvo2 hvn2, get?_insert_self]
          exact mem_keys_of_get? (h1.trans h2)
  refine dict_ext (nodupKeys_foldFlatTH ed (nodupKeys_thStateStep ed hm2)) ?_ fun k => ?_
  · rw [keys_foldFlatTH_of_sub fun kv hkv hp => ?_, hkeys_step]
    obtain ⟨k, v⟩ := kv
    rw [hkeys_step]
    exact mem_keys_foldFlatTH_of_pass _ hkv hp
  · cases hgk : get? ed k with
    | some u =>
      cases hpu : thPass k u with
      | true =>
        rw [get?_foldFlatTH_of_pass _ hed hgk hpu, get?_foldFlatTH_of_pass _ hed hgk hpu]
      | false =>
        rw [get?_foldFlatTH_of_skip _ hed hgk hpu]
        refine hstep_eq k fun u2 hu2 => ?_
        rw [hgk] at hu2
        obtain rfl := Option.some.inj hu2
        exact hpu
    | none =>
      rw [get?_foldFlatTH_of_none _ hgk]
      refine hstep_eq k fun u2 hu2 => ?_
      rw [hgk] at hu2
      exact absurd hu2 (by simp)

theorem thMergedBase_obj {e : Dict} {exf : Dict}
    (h : get? e "state" = some (Value.obj exf)) : thMergedBase e = union [] exf := by
  unfold thMergedBase
  rw [h]

theorem thMergedBase_none {e : Dict} (h : get? e "state" = none) :
    thMergedBase e = [] := by
  unfold thMergedBase
  rw [h]

theorem thMergedBase_scalar {e : Dict} {v : Value} (h : get? e "state" = some v)
    (hvo : v.isObj = false) : thMergedBase e = [] := by
  unfold thMergedBase
  rw [h]
  cases v with
  | obj fs => simp [Value.isObj] at hvo
  | null => rfl
  | bool b => rfl
  | num q => rfl
  | str s => rfl

theorem mergeTH_idem {e ed : Dict} (he : NodupKeys e) (hed : NodupKeys ed)
    (hevf : ∀ evf, get? ed "state" = some (Value.obj evf) → NodupKeys evf) :
    mergeTH (mergeTH e ed) ed = mergeTH e ed := by
  have hm0 : NodupKeys (thMergedBase e) := nodupKeys_thMergedBase e
  have hm1 : NodupKeys (thStateStep (thMergedBase e) ed) := nodupKeys_thStateStep ed hm0
  have hm2 : NodupKeys (foldFlatTH (thStateStep (thMergedBase e) ed) ed) :=
    nodupKeys_foldFlatTH ed hm1
  by_cases hempty : (foldFlatTH (thStateStep (thMergedBase e) ed) ed).isEmpty = true
  · have h2nil : foldFlatTH (thStateStep (thMergedBase e) ed) ed = [] := by
      cases hx : foldFlatTH (thStateStep (thMergedBase e) ed) ed with
      | nil => rfl
      | cons hd t => rw [hx] at hempty; simp [List.isEmpty] at hempty
    have hm1nil : thStateStep (thMergedBase e) ed = [] := base_nil_of_foldFlatTH_nil h2nil
    have hnopass := no_pass_of_foldFlatTH_nil h2nil
    have hf : mergeTH e ed = union e ed := by
      simp only [mergeTH]
      rw [if_pos hempty]
    rw [hf]
    have hstep2 : thStateStep [] ed = [] := by
      cases hs : get? ed "state" with
      | none => exact thStateStep_none _ hs
      | some v =>
        by_cases hvo : v.isObj = true
        · obtain ⟨evf, rfl⟩ := value_obj_of_isObj hvo
          rw [thStateStep_obj _ hs] at hm1nil
          obtain rfl := (union_eq_nil hm1nil).2
          rw [thStateStep_obj _ hs]
          rfl
        · by_cases hvn : v.isNull = true
          · obtain rfl := value_null_of_isNull hvn
            exact thStateStep_null _ hs
          · exfalso
            rw [thStateStep_scalar _ hs (bool_eq_false_of_ne_true hvo)
              (bool_eq_false_of_ne_true hvn)] at hm1nil
            exact insert_ne_nil _ _ _ hm1nil
    have hbase2 : thMergedBase (union e ed) = [] := by
      have hsu : get? (union e ed) "state"
          = (get? ed "state").orElse (fun _ => get? e "state") :=
        get?_union e "state" hed
      cases hs : get? ed "state" with
      | some v =>
        rw [hs] at hsu
        simp only [Option.orElse] at hsu
        by_cases hvo : v.isObj = true
        · obtain ⟨evf, rfl⟩ := value_obj_of_isObj hvo
          rw [thStateStep_obj _ hs] at hm1nil
          obtain rfl := (union_eq_nil hm1nil).2
          rw [thMergedBase_obj hsu]
          rfl
        · by_cases hvn : v.isNull = true
          · obtain rfl := value_null_of_isNull hvn
            exact thMergedBase_scalar hsu rfl
          · exfalso
            rw [thStateStep_scalar _ hs (bool_eq_false_of_ne_true hvo)
              (bool_eq_false_of_ne_true hvn)] at hm1nil
            exact insert_ne_nil _ _ _ hm1nil
      | none =>
        rw [hs] at hsu
        simp only [Option.orElse] at hsu
        rw [thStateStep_none _ hs] at hm1nil
        cases hse : get? e "state" with
        | none => exact thMergedBase_none (hse ▸ hsu)
        | some w =>
          by_cases hwo : w.isObj = true
          · obtain ⟨exf, rfl⟩ := value_obj_of_isObj hwo
            rw [thMergedBase_obj (hse ▸ hsu)]
            rw [thMergedBase_obj hse] at hm1nil
            exact hm1nil
          · exact thMergedBase_scalar (hse ▸ hsu) (bool_eq_false_of_ne_true hwo)
    simp only [mergeTH]
    rw [hbase2, hstep2, foldFlatTH_of_no_pass hnopass]
    simp only [List.isEmpty, if_true]
    exact union_union he hed
  · have hf : mergeTH e ed = insert (union e ed) "state"
        (Value.obj (foldFlatTH (thStateStep (thMergedBase e) ed) ed)) := by
      simp only [mergeTH]
      rw [if_neg hempty]
    rw [hf]
    simp only [mergeTH]
    have hbase2 : thMergedBase (insert (union e ed) "state"
        (Value.obj (foldFlatTH (thStateStep (thMergedBase e) ed) ed)))
        = foldFlatTH (thStateStep (thMergedBase e) ed) ed := by
      rw [thMergedBase_obj (get?_insert_self _ _ _)]
      exact union_nil_of_nodup hm2
    rw [hbase2, foldFlatTH_thStateStep_idem hed hevf hm0, if_neg hempty]
    exact insert_union_absorb "state" _ he hed

theorem mergeGeneral_eq_noev {e ed : Dict} (hsev : get? ed "state" = none) :
    mergeGeneral e ed = union e ed := by
  simp only [mergeGeneral]
  rw [hsev]
  cases get? e "state" <;> rfl

theorem mergeGeneral_eq_noex {e ed : Dict} (hse : get? e "state" = none) :
    mergeGeneral e ed = union e ed := by
  simp only [mergeGeneral]
  rw [hse]

theorem mergeGeneral_eq_both_obj {e ed exf evf : Dict}
    (hse : get? e "state" = some (Value.obj exf))
    (hsev : get? ed "state" = some (Value.obj evf)) :
    mergeGeneral e ed = insert (union e ed) "state" (Value.obj (union exf evf)) := by
  simp only [mergeGeneral]
  rw [hse, hsev]

theorem mergeGeneral_eq_obj_evv {e ed : Dict} {exv : Value} {evf : Dict}
    (hse : get? e "state" = some exv) (hxo : exv.isObj = false)
    (hsev : get? ed "state" = some (Value.obj evf)) :
    mergeGeneral e ed = insert (union e ed) "state" (Value.obj evf) := by
  simp only [mergeGeneral]
  rw [hse, hsev]
  cases exv with
  | obj fs => simp [Value.isObj] at hxo
  | null => rfl
  | bool b => rfl
  | num q => rfl
  | str s => rfl

theorem mergeGeneral_eq_exf_scalar {e ed : Dict} {exf : Dict} {evv : Value}
    (hse : get? e "state" = some (Value.obj exf))
    (hsev : get? ed "state" = some evv) (hvo : evv.isObj = false) :
    mergeGeneral e ed
      = insert (union e ed) "state" (Value.obj (insert exf "state" evv)) := by
  simp only [mergeGeneral]
  rw [hse, hsev]
  cases evv with
  | obj fs => simp [Value.isObj] at hvo
  | null => rfl
  | bool b => rfl
  | num q => rfl
  | str s => rfl

theorem mergeGeneral_eq_both_scalar {e ed : Dict} {exv evv : Value}
    (hse : get? e "state" = some exv) (hxo : exv.isObj = false)
    (hsev : get? ed "state" = some evv) (hvo : evv.isObj = false) :
    mergeGeneral e ed = union e ed := by
  simp only [mergeGeneral]
  rw [hse, hsev]
  cases exv with
  | obj fs => simp [Value.isObj] at hxo
  | null => cases evv <;> first | rfl | simp [Value.isObj] at hvo
  | bool b => cases evv <;> first | rfl | simp [Value.isObj] at hvo
  | num q => cases evv <;> first | rfl | simp [Value.isObj] at hvo
  | str s => cases evv <;> first | rfl | simp [Value.isObj] at hvo

theorem mergeGeneral_idem {e ed : Dict} (he : NodupKeys e) (hed : NodupKeys ed)
    (hexf : ∀ exf, get? e "state" = some (Value.obj exf) → NodupKeys exf)
    (hevf : ∀ evf, get? ed "state" = some (Value.obj evf) → NodupKeys evf) :
    mergeGeneral (mergeGeneral e ed) ed = mergeGeneral e ed := by
  cases hsev : get? ed "state" with
  | none =>
    rw [mergeGeneral_eq_noev hsev, mergeGeneral_eq_noev hsev]
    exact union_union he hed
  | some evv =>
    cases hse : get? e "state" with
    | none =>
      rw [mergeGeneral_eq_noex hse]
      have hs2 : get? (union e ed) "state" = some evv := by
        rw [get?_union e "state" hed, hsev]
        rfl
      by_cases hvo : evv.isObj = true
      · obtain ⟨evf, rfl⟩ := value_obj_of_isObj hvo
        rw [mergeGeneral_eq_both_obj hs2 hsev, union_self (hevf evf hsev),
          union_union he hed]
        exact insert_eq_self_of_get? (by rw [get?_union e "state" hed, hsev]; rfl)
      · have hvo2 := bool_eq_false_of_ne_true hvo
        rw [mergeGeneral_eq_both_scalar hs2 hvo2 hsev hvo2]
        exact union_union he hed
    | some exv =>
      by_cases hxo : exv.isObj = true
      · obtain ⟨exf, rfl⟩ := value_obj_of_isObj hxo
        by_cases hvo : evv.isObj = true
        · obtain ⟨evf, rfl⟩ := value_obj_of_isObj hvo
          rw [mergeGeneral_eq_both_obj hse hsev]
          have hs2 := get?_insert_self (union e ed) "state" (Value.obj (union exf evf))
          rw [mergeGeneral_eq_both_obj hs2 hsev,
            union_union (hexf exf hse) (hevf evf hsev)]
          exact insert_union_absorb "state" _ he hed
        · have hvo2 := bool_eq_false_of_ne_true hvo
          rw [mergeGeneral_eq_exf_scalar hse hsev hvo2]
          have hs2 := get?_insert_self (union e ed) "state"
            (Value.obj (insert exf "state" evv))
          rw [mergeGeneral_eq_exf_scalar hs2 hsev hvo2, insert_insert_self]
          exact insert_union_absorb "state" _ he hed
      · have hxo2 := bool_eq_false_of_ne_true hxo
        by_cases hvo : evv.isObj = true
        · obtain ⟨evf, rfl⟩ := value_obj_of_isObj hvo
          rw [mergeGeneral_eq_obj_evv hse hxo2 hsev]
          have hs2 := get?_insert_self (union e ed) "state" (Value.obj evf)
          rw [mergeGeneral_eq_both_obj hs2 hsev, union_self (hevf evf hsev)]
          exact insert_union_absorb "state" _ he hed
        · have hvo2 := bool_eq_false_of_ne_true hvo
          rw [mergeGeneral_eq_both_scalar hse hxo2 hsev hvo2]
          have hs2 : get? (union e ed) "state" = some evv := by
            rw [get?_union e "state" hed, hsev]
            rfl
          rw [mergeGeneral_eq_both_scalar hs2 hvo2 hsev hvo2]
          exact union_union he hed

/-- C1: for every inbound event whose device identifier is not a key of the
device registry, applying the event leaves the state store unchanged and
triggers no subscriber dispatch; the handler returns before any merge
branch is reached. -/
theorem C1_unknown_device_event_drops (devices : List (String × Device))
    (states : List (String × Dict)) (ev : DeviceEvent)
    (h : get? devices ev.device_id = none) :
    onDeviceEvent devices states ev = some (states, false) := by
  unfold onDeviceEvent
  rw [h]

theorem C1_witness :
    get? ([] : List (String × Device)) "dev1" = none ∧
    onDeviceEvent [] [] ⟨"dev1", "report", Value.obj [("state", Value.str "open")]⟩
      = some ([], false) :=
  ⟨rfl, C1_unknown_device_event_drops [] []
    ⟨"dev1", "report", Value.obj [("state", Value.str "open")]⟩ rfl⟩

/-- C5: the claim says an MQTT connect timeout is surfaced to
create_coordinator as a connection error and startup fails atomically with
the session released.  The MQTT client does convert the timeout to a
connection error (first conjunct), but the coordinator wraps the connect
call in a catch-all that only logs, so with every earlier step succeeding
and the connection never established create_coordinator returns success and
the session stays open (second conjunct), contradicting the claim; only
errors raised outside that catch, such as a token failure, close the
session and propagate (third conjunct). -/
theorem C5_mqtt_timeout_swallowed :
    mqttClientConnect ⟨Except.ok (), Except.ok (), Except.ok (), false⟩
        = Except.error StartupErr.connectionError ∧
    create_coordinator ⟨Except.ok (), Except.ok (), Except.ok (), false⟩
        = (Except.ok (), false) ∧
    create_coordinator ⟨Except.error StartupErr.authError, Except.ok (), Except.ok (), false⟩
        = (Except.error StartupErr.authError, true) :=
  ⟨rfl, rfl, rfl⟩

/-- C7: the derived model is null unless the hardware identity string has
length at least 10, in which case the 4-character substring at offset 6 is
formatted as YS code -UC; the display type equals the raw type except that
code 7706 forces TiltSensor and 8004 forces TempSensor; the standalone
tooling display-type normalizer agrees with the integration derivation. -/
theorem C7_model_derivation (s raw : String) :
    (fromApiModelDisplay none raw = (none, raw)) ∧
    (s.length < 10 → fromApiModelDisplay (some s) raw = (none, raw)) ∧
    (10 ≤ s.length →
      (fromApiModelDisplay (some s) raw).1
          = some ("YS" ++ String.mk ((s.toList.drop 6).take 4) ++ "-UC") ∧
      (String.mk ((s.toList.drop 6).take 4) = "7706" →
        (fromApiModelDisplay (some s) raw).2 = "TiltSensor") ∧
      (String.mk ((s.toList.drop 6).take 4) = "8004" →
        (fromApiModelDisplay (some s) raw).2 = "TempSensor") ∧
      (String.mk ((s.toList.drop 6).take 4) ≠ "7706" →
        String.mk ((s.toList.drop 6).take 4) ≠ "8004" →
        (fromApiModelDisplay (some s) raw).2 = raw)) ∧
    (normalize_display_type raw (some s) = (fromApiModelDisplay (some s) raw).2) ∧
    (normalize_display_type raw none = raw) := by
  have hred : fromApiModelDisplay (some s) raw
      = if s ≠ "" then
          if 10 ≤ s.length then
            (some ("YS" ++ String.mk ((s.toList.drop 6).take 4) ++ "-UC"),
              if String.mk ((s.toList.drop 6).take 4) = "7706" then "TiltSensor"
              else if String.mk ((s.toList.drop 6).take 4) = "8004" then "TempSensor"
              else raw)
          else (none, raw)
        else (none, raw) := rfl
  have hmred : model_num_from_app_eui (some s)
      = if s ≠ "" ∧ 10 ≤ s.length then some (String.mk ((s.toList.drop 6).take 4))
        else none := rfl
  refine ⟨rfl, ?_, ?_, ?_, rfl⟩
  · intro hlt
    by_cases hs0 : s = ""
    · subst hs0
      rfl
    · rw [hred, if_pos hs0, if_neg (by omega)]
  · intro hge
    have hs0 : s ≠ "" := by
      intro h
      rw [h] at hge
      simp [String.length] at hge
    have hdisp : (fromApiModelDisplay (some s) raw).2
        = if String.mk ((s.toList.drop 6).take 4) = "7706" then "TiltSensor"
          else if String.mk ((s.toList.drop 6).take 4) = "8004" then "TempSensor"
          else raw := by
      rw [hred, if_pos hs0, if_pos hge]
    refine ⟨?_, ?_, ?_, ?_⟩
    · rw [hred, if_pos hs0, if_pos hge]
    · intro hc
      rw [hdisp, if_pos hc]
    · intro hc
      have hc1 : String.mk ((s.toList.drop 6).take 4) ≠ "7706" := by
        rw [hc]
        decide
      rw [hdisp, if_neg hc1, if_pos hc]
    · intro hc1 hc2
      rw [hdisp, if_neg hc1, if_neg hc2]
  · by_cases hs0 : s = ""
    · subst hs0
      rfl
    · by_cases h10 : 10 ≤ s.length
      · have hm : model_num_from_app_eui (some s)
            = some (String.mk ((s.toList.drop 6).take 4)) := by
          rw [hmred, if_pos ⟨hs0, h10⟩]
        have hdisp : (fromApiModelDisplay (some s) raw).2
            = if String.mk ((s.toList.drop 6).take 4) = "7706" then "TiltSensor"
              else if String.mk ((s.toList.drop 6).take 4) = "8004" then "TempSensor"
              else raw := by
          rw [hred, if_pos hs0, if_pos h10]
        rw [normalize_display_type, hm, hdisp]
        by_cases hc1 : String.mk ((s.toList.drop 6).take 4) = "7706"
        · rw [if_pos (congrArg some hc1), if_pos hc1]
        · rw [if_neg fun h => hc1 (Option.some.inj h), if_neg hc1]
          by_cases hc2 : String.mk ((s.toList.drop 6).take 4) = "8004"
          · rw [if_pos (congrArg some hc2), if_pos hc2]
          · rw [if_neg fun h => hc2 (Option.some.inj h), if_neg hc2]
      · have hm : model_num_from_app_eui (some s) = none := by
          rw [hmred, if_neg fun h => h10 h.2]
        have hdisp : (fromApiModelDisplay (some s) raw).2 = raw := by
          rw [hred, if_pos hs0, if_neg h10]
        rw [normalize_display_type, hm, hdisp]
        rfl

theorem C7_witness :
    (fromApiModelDisplay (some "d88b4c7804000000") "Sensor").1 = some "YS7804-UC" ∧
    (fromApiModelDisplay (some "d88b4c7804000000") "Sensor").2 = "Sensor" ∧
    fromApiModelDisplay (some "ab") "Sensor" = (none, "Sensor") := by
  have h := C7_model_derivation "d88b4c7804000000" "Sensor"
  have h2 := C7_model_derivation "ab" "Sensor"
  refine ⟨?_, ?_, h2.2.1 (by decide)⟩
  · rw [(h.2.2.1 (by decide)).1]
    rfl
  · exact (h.2.2.1 (by decide)).2.2.2 (by decide) (by decide)

/-- C9: a snapshot that lacks the online key is treated as online by the
availability check (same availability as with online set to true), and a
snapshot whose reportAt value is truthy and parses to a timestamp more than
12 hours (43200 seconds) before the current time is reported unavailable
even when the online flag is true or absent. -/
theorem C9_availability (sa : Bool) (state : Dict) (parse : Value → Option Int)
    (now : Int) :
    (get? state "online" = none →
      availableWith sa state parse now
        = availableWith sa (insert state "online" (Value.bool true)) parse now) ∧
    (∀ r t, get? state "reportAt" = some r → r.truthy = true → parse r = some t →
      now - t > 43200 → availableWith sa state parse now = false) := by
  constructor
  · intro h
    simp [availableWith, h, get?_insert_self,
      get?_insert_ne state (Value.bool true) (show "online" ≠ "reportAt" by decide)]
  · intro r t hr htr hp hgt
    simp [availableWith, hr, htr, hp, hgt]

theorem C9_witness :
    (availableWith true [("reportAt", Value.str "old")] (fun _ => some 0) 100000
      = availableWith true
          (insert [("reportAt", Value.str "old")] "online" (Value.bool true))
          (fun _ => some 0) 100000) ∧
    availableWith true [("reportAt", Value.str "old")] (fun _ => some 0) 100000
      = false :=
  ⟨(C9_availability true [("reportAt", Value.str "old")] (fun _ => some 0) 100000).1 rfl,
   (C9_availability true [("reportAt", Value.str "old")] (fun _ => some 0) 100000).2
     (Value.str "old") 0 rfl rfl rfl (by decide)⟩

/-- C4: non-THSensor merge when both the existing snapshot and the incoming
data carry a state key: an incoming mapping over a non-mapping existing
state becomes the resulting state entirely; an incoming scalar over an
existing mapping yields that mapping with its own state sub-field set to
the scalar and every other sub-field unchanged; two mappings merge field by
field with the incoming value winning per field. -/
theorem C4_general_state_reconciliation (existing event_data : Dict)
    (exv evv : Value)
    (hse : get? existing "state" = some exv)
    (hsev : get? event_data "state" = some evv) :
    (∀ evf, evv = Value.obj evf → exv.isObj = false →
      get? (mergeGeneral existing event_data) "state" = some (Value.obj evf)) ∧
    (∀ exf, exv = Value.obj exf → evv.isObj = false →
      ∃ m, get? (mergeGeneral existing event_data) "state" = some (Value.obj m) ∧
        get? m "state" = some evv ∧
        ∀ k, k ≠ "state" → get? m k = get? exf k) ∧
    (∀ exf evf, exv = Value.obj exf → evv = Value.obj evf → NodupKeys evf →
      ∃ m, get? (mergeGeneral existing event_data) "state" = some (Value.obj m) ∧
        ∀ k, get? m k = (get? evf k).orElse (fun _ => get? exf k)) := by
  refine ⟨?_, ?_, ?_⟩
  · rintro evf rfl hxo
    rw [mergeGeneral_eq_obj_evv hse hxo hsev, get?_insert_self]
  · rintro exf rfl hvo
    rw [mergeGeneral_eq_exf_scalar hse hsev hvo]
    exact ⟨insert exf "state" evv, get?_insert_self _ _ _, get?_insert_self _ _ _,
      fun k hk => get?_insert_ne exf evv fun h => hk h.symm⟩
  · rintro exf evf rfl rfl hevf
    rw [mergeGeneral_eq_both_obj hse hsev]
    exact ⟨union exf evf, get?_insert_self _ _ _, fun k => get?_union exf k hevf⟩

theorem C4_witness :
    get? (mergeGeneral [("state", Value.str "closed")]
        [("state", Value.obj [("battery", Value.num 3)])]) "state"
      = some (Value.obj [("battery", Value.num 3)]) :=
  (C4_general_state_reconciliation [("state", Value.str "closed")]
      [("state", Value.obj [("battery", Value.num 3)])]
      (Value.str "closed") (Value.obj [("battery", Value.num 3)]) rfl rfl).1
    [("battery", Value.num 3)] rfl rfl

/-- C3: in the THSensor merge, an incoming top-level null temperature,
humidity, mode or version is treated as not reported: the merged snapshot's
nested state mapping keeps the previously known value of that field. -/
theorem C3_null_skip_preserves (existing event_data : Dict) (exf : Dict)
    (k : String) (v : Value)
    (hed : NodupKeys event_data)
    (hk4 : k = "temperature" ∨ k = "humidity" ∨ k = "mode" ∨ k = "version")
    (hkn : get? event_data k = some Value.null)
    (hse : get? existing "state" = some (Value.obj exf))
    (hexf : NodupKeys exf)
    (hv : get? exf k = some v)
    (hnostate : ∀ evf, get? event_data "state" = some (Value.obj evf) →
      get? evf k = none)
    (hevf : ∀ evf, get? event_data "state" = some (Value.obj evf) → NodupKeys evf) :
    ∃ m, get? (mergeTH existing event_data) "state" = some (Value.obj m) ∧
      get? m k = some v := by
  have hkstate : k ≠ "state" := by
    rcases hk4 with rfl | rfl | rfl | rfl <;> decide
  have hpass : thPass k Value.null = false := by
    rcases hk4 with rfl | rfl | rfl | rfl <;> rfl
  have hm0ex : get? (thMergedBase existing) k = some v := by
    rw [thMergedBase_obj hse, get?_union [] k hexf, hv]
    rfl
  have hm1 : get? (thStateStep (thMergedBase existing) event_data) k = some v := by
    cases hs : get? event_data "state" with
    | none =>
      rw [thStateStep_none _ hs]
      exact hm0ex
    | some w =>
      by_cases hwo : w.isObj = true
      · obtain ⟨evf, rfl⟩ := value_obj_of_isObj hwo
        rw [thStateStep_obj _ hs, get?_union _ k (hevf evf hs), hnostate evf hs]
        simpa [Option.orElse] using hm0ex
      · by_cases hwn : w.isNull = true
        · obtain rfl := value_null_of_isNull hwn
          rw [thStateStep_null _ hs]
          exact hm0ex
        · rw [thStateStep_scalar _ hs (bool_eq_false_of_ne_true hwo)
            (bool_eq_false_of_ne_true hwn),
            get?_insert_ne _ w fun h => hkstate h.symm]
          exact hm0ex
  have hm2 : get? (foldFlatTH (thStateStep (thMergedBase existing) event_data)
      event_data) k = some v := by
    rw [get?_foldFlatTH_of_skip _ hed hkn hpass]
    exact hm1
  have hne : (foldFlatTH (thStateStep (thMergedBase existing) event_data)
      event_data).isEmpty = false := by
    cases hx : foldFlatTH (thStateStep (thMergedBase existing) event_data) event_data with
    | nil =>
      rw [hx] at hm2
      simp [get?] at hm2
    | cons hd t => rfl
  refine ⟨_, ?_, hm2⟩
  simp only [mergeTH]
  rw [if_neg (by rw [hne]; exact Bool.false_ne_true)]
  exact get?_insert_self _ _ _

theorem C3_witness :
    ∃ m, get? (mergeTH [("state", Value.obj [("temperature", Value.num 21.5)])]
        [("temperature", Value.null)]) "state" = some (Value.obj m) ∧
      get? m "temperature" = some (Value.num 21.5) :=
  C3_null_skip_preserves [("state", Value.obj [("temperature", Value.num 21.5)])]
    [("temperature", Value.null)] [("temperature", Value.num 21.5)]
    "temperature" (Value.num 21.5)
    (by unfold NodupKeys keys; decide) (Or.inl rfl) rfl rfl
    (by unfold NodupKeys keys; decide) rfl
    (fun evf h => by simp [get?] at h) (fun evf h => by simp [get?] at h)

/-- C2 counterexample: the claim says a folded key does not remain as a
top-level key of the resulting snapshot; merging the flat report with the
single key humidity over an empty snapshot folds humidity into the nested
state mapping but also keeps it at top level, so the claim fails at this
input. -/
theorem C2_counterexample :
    get? (mergeTH [] [("humidity", Value.num 55)]) "state"
      = some (Value.obj [("humidity", Value.num 55)]) ∧
    ¬ get? (mergeTH [] [("humidity", Value.num 55)]) "humidity" = none := by
  constructor
  · rfl
  · intro h
    rw [show get? (mergeTH [] [("humidity", Value.num 55)]) "humidity"
        = some (Value.num 55) from rfl] at h
    exact Option.noConfusion h

/-- C2 amended: every top-level key of the incoming data other than state,
online and reportAt — except a null-valued temperature, humidity, mode or
version, which is skipped — is folded into the resulting snapshot's nested
state mapping, and also remains as a top-level key of the resulting
snapshot (the code keeps top-level copies for fallback readers). -/
theorem C2_amended_fold_keeps_top_level (existing event_data : Dict)
    (hed : NodupKeys event_data) :
    ∀ k v, get? event_data k = some v → k ≠ "state" → k ≠ "online" →
      k ≠ "reportAt" → thNullSkip k v = false →
      ∃ m, get? (mergeTH existing event_data) "state" = some (Value.obj m) ∧
        get? m k = some v ∧ get? (mergeTH existing event_data) k = some v := by
  intro k v hkv hk1 hk2 hk3 hnsk
  have hsk : skipKey k = false := by simp [skipKey, hk1, hk2, hk3]
  have hpass : thPass k v = true := by
    unfold thPass
    rw [hsk, hnsk]
    rfl
  have hm2 : get? (foldFlatTH (thStateStep (thMergedBase existing) event_data)
      event_data) k = some v :=
    get?_foldFlatTH_of_pass _ hed hkv hpass
  have hne : (foldFlatTH (thStateStep (thMergedBase existing) event_data)
      event_data).isEmpty = false := by
    cases hx : foldFlatTH (thStateStep (thMergedBase existing) event_data) event_data with
    | nil =>
      rw [hx] at hm2
      simp [get?] at hm2
    | cons hd t => rfl
  refine ⟨_, ?_, hm2, ?_⟩
  · simp only [mergeTH]
    rw [if_neg (by rw [hne]; exact Bool.false_ne_true)]
    exact get?_insert_self _ _ _
  · simp only [mergeTH]
    rw [if_neg (by rw [hne]; exact Bool.false_ne_true),
      get?_insert_ne _ _ fun h => hk1 h.symm, get?_union existing k hed, hkv]
    rfl

theorem C2_amended_witness :
    ∃ m, get? (mergeTH [] [("humidity", Value.num 55)]) "state"
        = some (Value.obj m) ∧
      get? m "humidity" = some (Value.num 55) ∧
      get? (mergeTH [] [("humidity", Value.num 55)]) "humidity"
        = some (Value.num 55) :=
  C2_amended_fold_keeps_top_level [] [("humidity", Value.num 55)]
    (by unfold NodupKeys keys; decide)
    "humidity" (Value.num 55) rfl (by decide) (by decide) (by decide) rfl

theorem msFold_cons (acc : Dict × Dict) (k : String) (v : Value) (t : Dict) :
    ((k, v) :: t).foldl msStep acc = t.foldl msStep (msStep acc (k, v)) := rfl

theorem get?_msFold_fst_of_none {ed : Dict} {k : String} (acc : Dict × Dict)
    (h : get? ed k = none) : get? (ed.foldl msStep acc).1 k = get? acc.1 k := by
  induction ed generalizing acc with
  | nil => rfl
  | cons hd t ih =>
    obtain ⟨k1, v1⟩ := hd
    have h1 : k1 ≠ k := by
      intro hh
      simp [get?, hh] at h
    simp only [get?, if_neg h1] at h
    rw [msFold_cons]
    simp only [msStep]
    by_cases hsk : skipKey k1 = true
    · rw [if_pos hsk]
      exact ih _ h
    · rw [if_neg hsk, ih _ h]
      exact get?_insert_ne acc.1 v1 h1

theorem get?_msFold_snd_of_none {ed : Dict} {k : String} (acc : Dict × Dict)
    (h : get? ed k = none) : get? (ed.foldl msStep acc).2 k = get? acc.2 k := by
  induction ed generalizing acc with
  | nil => rfl
  | cons hd t ih =>
    obtain ⟨k1, v1⟩ := hd
    have h1 : k1 ≠ k := by
      intro hh
      simp [get?, hh] at h
    simp only [get?, if_neg h1] at h
    rw [msFold_cons]
    simp only [msStep]
    by_cases hsk : skipKey k1 = true
    · rw [if_pos hsk]
      exact ih _ h
    · rw [if_neg hsk, ih _ h]
      exact get?_erase_ne acc.2 h1

theorem get?_msFold_fst_of_nonskip {ed : Dict} {k : String} {v : Value}
    (acc : Dict × Dict) (hed : NodupKeys ed) (h : get? ed k = some v)
    (hsk : skipKey k = false) : get? (ed.foldl msStep acc).1 k = some v := by
  induction ed generalizing acc with
  | nil => simp [get?] at h
  | cons hd t ih =>
    obtain ⟨k1, v1⟩ := hd
    obtain ⟨hm, ht⟩ := nodupKeys_cons.mp hed
    rw [msFold_cons]
    simp only [msStep]
    by_cases h1 : k1 = k
    · subst h1
      simp only [get?, if_pos rfl] at h
      obtain rfl := Option.some.inj h
      rw [if_neg (by rw [hsk]; exact Bool.false_ne_true)]
      rw [get?_msFold_fst_of_none _ (get?_eq_none_of_not_mem hm)]
      exact get?_insert_self _ _ _
    · simp only [get?, if_neg h1] at h
      by_cases hsk1 : skipKey k1 = true
      · rw [if_pos hsk1]
        exact ih _ ht h
      · rw [if_neg hsk1]
        exact ih _ ht h

theorem get?_msFold_snd_of_nonskip {ed : Dict} {k : String} {v : Value}
    (acc : Dict × Dict) (hed : NodupKeys ed) (hacc : NodupKeys acc.2)
    (h : get? ed k = some v) (hsk : skipKey k = false) :
    get? (ed.foldl msStep acc).2 k = none := by
  induction ed generalizing acc with
  | nil => simp [get?] at h
  | cons hd t ih =>
    obtain ⟨k1, v1⟩ := hd
    obtain ⟨hm, ht⟩ := nodupKeys_cons.mp hed
    rw [msFold_cons]
    simp only [msStep]
    by_cases h1 : k1 = k
    · subst h1
      simp only [get?, if_pos rfl] at h
      rw [if_neg (by rw [hsk]; exact Bool.false_ne_true)]
      rw [get?_msFold_snd_of_none _ (get?_eq_none_of_not_mem hm)]
      exact get?_erase_self k1 hacc
    · simp only [get?, if_neg h1] at h
      by_cases hsk1 : skipKey k1 = true
      · rw [if_pos hsk1]
        exact ih _ ht hacc h
      · rw [if_neg hsk1]
        refine ih _ ht ?_ h
        exact nodupKeys_erase k1 hacc

theorem merge_state_eq_obj {existing ed : Dict} {exf : Dict}
    (hse : get? existing "state" = some (Value.obj exf)) :
    merge_state existing ed
      = insert (ed.foldl msStep
            (thStateStep (union [] exf) ed, union existing ed)).2
          "state"
          (Value.obj (ed.foldl msStep
            (thStateStep (union [] exf) ed, union existing ed)).1) := by
  simp only [merge_state]
  rw [hse]

/-- C10: in the standalone tooling merge_state, when the existing snapshot
holds a nested state mapping, every top-level key of the event data other
than state, online and reportAt — for every device family and including
null values — is placed into the nested state mapping and removed from the
result's top level. -/
theorem C10_tooling_fold_moves_keys (existing event_data : Dict) (exf : Dict)
    (hex : NodupKeys existing) (hed : NodupKeys event_data)
    (hse : get? existing "state" = some (Value.obj exf)) :
    ∀ k v, get? event_data k = some v → k ≠ "state" → k ≠ "online" →
      k ≠ "reportAt" →
      get? (merge_state existing event_data) k = none ∧
      ∃ m, get? (merge_state existing event_data) "state" = some (Value.obj m) ∧
        get? m k = some v := by
  intro k v hkv hk1 hk2 hk3
  have hsk : skipKey k = false := by simp [skipKey, hk1, hk2, hk3]
  have hns : NodupKeys (union existing event_data) := nodupKeys_union event_data hex
  rw [merge_state_eq_obj hse]
  refine ⟨?_, _, get?_insert_self _ _ _, ?_⟩
  · rw [get?_insert_ne _ _ fun h => hk1 h.symm]
    exact get?_msFold_snd_of_nonskip _ hed hns hkv hsk
  · exact get?_msFold_fst_of_nonskip _ hed hkv hsk

theorem C10_witness :
    get? (merge_state [("state", Value.obj [("a", Value.num 1)])]
        [("b", Value.null)]) "b" = none ∧
    ∃ m, get? (merge_state [("state", Value.obj [("a", Value.num 1)])]
        [("b", Value.null)]) "state" = some (Value.obj m) ∧
      get? m "b" = some Value.null :=
  C10_tooling_fold_moves_keys [("state", Value.obj [("a", Value.num 1)])]
    [("b", Value.null)] [("a", Value.num 1)]
    (by unfold NodupKeys keys; decide) (by unfold NodupKeys keys; decide) rfl
    "b" Value.null rfl (by decide) (by decide) (by decide)

theorem select_raw_data_of_data {payload : Dict} {v : Value}
    (h : get? payload "data" = some v) (hn : v.isNull = false) :
    select_raw_data payload = some v := by
  simp [select_raw_data, h, hn]

theorem select_raw_data_of_params_data {payload : Dict} {ps : Dict} {d : Value}
    (hdm : get? payload "data" = none ∨ get? payload "data" = some Value.null)
    (hp : get? payload "params" = some (Value.obj ps))
    (hd : get? ps "data" = some d) (hdn : d.isNull = false) :
    select_raw_data payload = some d := by
  rcases hdm with hd0 | hd0
  · simp [select_raw_data, hd0, hp, hd, hdn]
  · simp [select_raw_data, hd0, hp, hd, hdn, show Value.null.isNull = true from rfl]

theorem select_raw_data_of_params_whole {payload : Dict} {ps : Dict}
    (hdm : get? payload "data" = none ∨ get? payload "data" = some Value.null)
    (hp : get? payload "params" = some (Value.obj ps))
    (hd : get? ps "data" = none) :
    select_raw_data payload = some (Value.obj ps) := by
  rcases hdm with hd0 | hd0 <;> simp [select_raw_data, hd0, hp, hd, Value.isNull]

theorem select_raw_data_of_state {payload : Dict} {st : Value}
    (hdm : get? payload "data" = none ∨ get? payload "data" = some Value.null)
    (hpn : get? payload "params" = none
      ∨ ∃ w, get? payload "params" = some w ∧ w.isObj = false)
    (hs : get? payload "state" = some st) :
    select_raw_data payload = some (Value.obj [("state", st)]) := by
  rcases hdm with hd0 | hd0 <;>
    (rcases hpn with hp0 | ⟨w, hp0, hwo⟩
     · simp [select_raw_data, hd0, hp0, hs, Value.isNull]
     · cases w
       case obj fs => simp [Value.isObj] at hwo
       all_goals simp [select_raw_data, hd0, hp0, hs, Value.isNull])

theorem select_raw_data_of_nothing {payload : Dict}
    (hdm : get? payload "data" = none ∨ get? payload "data" = some Value.null)
    (hpn : get? payload "params" = none
      ∨ ∃ w, get? payload "params" = some w ∧ w.isObj = false)
    (hs : get? payload "state" = none) :
    select_raw_data payload = none := by
  rcases hdm with hd0 | hd0 <;>
    (rcases hpn with hp0 | ⟨w, hp0, hwo⟩
     · simp [select_raw_data, hd0, hp0, hs, Value.isNull]
     · cases w
       case obj fs => simp [Value.isObj] at hwo
       all_goals simp [select_raw_data, hd0, hp0, hs, Value.isNull])

/-- C6 counterexample: the claim says the payload time value is copied into
the data mapping as reportAt whenever the data mapping lacks reportAt; the
code guards the copy with Python truthiness of the time value, so a present
but empty-string time is not copied and the claim fails at this input. -/
theorem C6_counterexample :
    get? ([("time", Value.str ""), ("state", Value.num 1)] : Dict) "time"
      = some (Value.str "") ∧
    (normalize_event_payload [("time", Value.str ""), ("state", Value.num 1)]).2
      = [("state", Value.num 1)] ∧
    ¬ get? (normalize_event_payload
        [("time", Value.str ""), ("state", Value.num 1)]).2 "reportAt"
      = some (Value.str "") := by
  refine ⟨rfl, rfl, ?_⟩
  intro h
  rw [show get? (normalize_event_payload
      [("time", Value.str ""), ("state", Value.num 1)]).2 "reportAt"
      = none from rfl] at h
  exact Option.noConfusion h

/-- C6 amended: the normalizer selects the data mapping by the first
matching rule in order (top-level non-null data; else the data sub-key of a
params mapping, or the whole params mapping when the sub-key is absent;
else a wrap of the top-level state value; else the empty mapping), reads
the device identifier from deviceId defaulting to the empty string, copies
the payload online value in when the online key is absent from the data
mapping, and copies the payload time value in as reportAt when reportAt is
absent from the data mapping AND the time value is truthy; keys already
present are preserved and no other key is touched by the augmentation.
The function is total, so no input raises. -/
theorem C6_amended_normalizer (payload : Dict) :
    ((normalize_event_payload payload).1
      = (get? payload "deviceId").getD (Value.str "")) ∧
    (∀ v, get? payload "data" = some v → v.isNull = false →
      (normalize_event_payload payload).2
        = augment_event_data payload (wrap_event_data (some v))) ∧
    ((get? payload "data" = none ∨ get? payload "data" = some Value.null) →
      ∀ ps, get? payload "params" = some (Value.obj ps) →
        (∀ d, get? ps "data" = some d → d.isNull = false →
          (normalize_event_payload payload).2
            = augment_event_data payload (wrap_event_data (some d))) ∧
        (get? ps "data" = none →
          (normalize_event_payload payload).2
            = augment_event_data payload (union [] ps))) ∧
    ((get? payload "data" = none ∨ get? payload "data" = some Value.null) →
      (get? payload "params" = none
        ∨ ∃ w, get? payload "params" = some w ∧ w.isObj = false) →
      ∀ st, get? payload "state" = some st →
        (normalize_event_payload payload).2
          = augment_event_data payload [("state", st)]) ∧
    ((get? payload "data" = none ∨ get? payload "data" = some Value.null) →
      (get? payload "params" = none
        ∨ ∃ w, get? payload "params" = some w ∧ w.isObj = false) →
      get? payload "state" = none →
      (normalize_event_payload payload).2 = augment_event_data payload []) ∧
    (∀ d k, k ≠ "reportAt" → k ≠ "online" →
      get? (augment_event_data payload d) k = get? d k) ∧
    (∀ d t, get? d "reportAt" = none → get? payload "time" = some t →
      t.truthy = true →
      get? (augment_event_data payload d) "reportAt" = some t) ∧
    (∀ d w, get? d "reportAt" = some w →
      get? (augment_event_data payload d) "reportAt" = some w) ∧
    (∀ d o, get? d "online" = none → get? payload "online" = some o →
      get? (augment_event_data payload d) "online" = some o) ∧
    (∀ d w, get? d "online" = some w →
      get? (augment_event_data payload d) "online" = some w) := by
  refine ⟨rfl, ?_, ?_, ?_, ?_, ?_, ?_, ?_, ?_, ?_⟩
  · intro v h hn
    unfold normalize_event_payload
    rw [select_raw_data_of_data h hn]
  · intro hdm ps hp
    constructor
    · intro d hd hdn
      unfold normalize_event_payload
      rw [select_raw_data_of_params_data hdm hp hd hdn]
    · intro hd
      unfold normalize_event_payload
      rw [select_raw_data_of_params_whole hdm hp hd]
      rfl
  · intro hdm hpn st hs
    unfold normalize_event_payload
    rw [select_raw_data_of_state hdm hpn hs]
    rfl
  · intro hdm hpn hs
    unfold normalize_event_payload
    rw [select_raw_data_of_nothing hdm hpn hs]
    rfl
  · intro d k hk1 hk2
    simp only [augment_event_data]
    by_cases c1 : ((get? d "reportAt").isNone
        && ((get? payload "time").getD Value.null).truthy) = true
    · rw [if_pos c1]
      by_cases c2 : ((get? (insert d "reportAt"
          ((get? payload "time").getD Value.null)) "online").isNone
          && (get? payload "online").isSome) = true
      · rw [if_pos c2, get?_insert_ne _ _ fun h => hk2 h.symm,
          get?_insert_ne _ _ fun h => hk1 h.symm]
      · rw [if_neg c2, get?_insert_ne _ _ fun h => hk1 h.symm]
    · rw [if_neg c1]
      by_cases c2 : ((get? d "online").isNone && (get? payload "online").isSome) = true
      · rw [if_pos c2, get?_insert_ne _ _ fun h => hk2 h.symm]
      · rw [if_neg c2]
  · intro d t h0 ht htr
    simp only [augment_event_data, ht, h0, Option.getD_some, Option.isNone_none,
      Bool.true_and, htr, if_true]
    by_cases c2 : ((get? (insert d "reportAt" t) "online").isNone
        && (get? payload "online").isSome) = true
    · rw [if_pos c2, get?_insert_ne _ _ (show "online" ≠ "reportAt" by decide),
        get?_insert_self]
    · rw [if_neg c2, get?_insert_self]
  · intro d w hw
    simp only [augment_event_data]
    have hcc : ¬ ((get? d "reportAt").isNone
        && ((get? payload "time").getD Value.null).truthy) = true := by
      rw [hw]
      exact Bool.false_ne_true
    rw [if_neg hcc]
    by_cases c2 : ((get? d "online").isNone && (get? payload "online").isSome) = true
    · rw [if_pos c2, get?_insert_ne _ _ (show "online" ≠ "reportAt" by decide), hw]
    · rw [if_neg c2, hw]
  · intro d o h0 ho
    simp only [augment_event_data]
    by_cases c1 : ((get? d "reportAt").isNone
        && ((get? payload "time").getD Value.null).truthy) = true
    · rw [if_pos c1]
      have hc2 : ((get? (insert d "reportAt"
          ((get? payload "time").getD Value.null)) "online").isNone
          && (get? payload "online").isSome) = true := by
        rw [get?_insert_ne _ _ (show "reportAt" ≠ "online" by decide), h0, ho]
        rfl
      rw [if_pos hc2, get?_insert_self, ho]
      rfl
    · rw [if_neg c1]
      have hc2 : ((get? d "online").isNone && (get? payload "online").isSome) = true := by
        rw [h0, ho]
        rfl
      rw [if_pos hc2, get?_insert_self, ho]
      rfl
  · intro d w hw
    simp only [augment_event_data]
    by_cases c1 : ((get? d "reportAt").isNone
        && ((get? payload "time").getD Value.null).truthy) = true
    · rw [if_pos c1]
      have hc2 : ((get? (insert d "reportAt"
          ((get? payload "time").getD Value.null)) "online").isNone
          && (get? payload "online").isSome) = false := by
        rw [get?_insert_ne _ _ (show "reportAt" ≠ "online" by decide), hw]
        rfl
      rw [if_neg (by rw [hc2]; exact Bool.false_ne_true),
        get?_insert_ne _ _ (show "reportAt" ≠ "online" by decide), hw]
    · rw [if_neg c1]
      by_cases c2 : ((get? d "online").isNone && (get? payload "online").isSome) = true
      · exfalso
        rw [hw] at c2
        simp at c2
      · rw [if_neg c2, hw]

theorem C6_amended_witness :
    (normalize_event_payload [("time", Value.str "t1"), ("state", Value.num 5)]).2
      = augment_event_data [("time", Value.str "t1"), ("state", Value.num 5)]
          [("state", Value.num 5)] ∧
    get? (augment_event_data [("time", Value.str "t1"), ("state", Value.num 5)]
        [("state", Value.num 5)]) "reportAt" = some (Value.str "t1") :=
  ⟨(C6_amended_normalizer [("time", Value.str "t1"), ("state", Value.num 5)]).2.2.2.1
      (Or.inl rfl) (Or.inl rfl) (Value.num 5) rfl,
   (C6_amended_normalizer [("time", Value.str "t1"), ("state", Value.num 5)]).2.2.2.2.2.2.1
      [("state", Value.num 5)] (Value.str "t1") rfl rfl rfl⟩

/-- C8: for every registered device and every fixed mapping-shaped event
payload over well-formed Python dicts (no duplicate keys, as real dicts
guarantee), applying the same event twice in a row yields the same final
store and the same dispatch as applying it once: both the THSensor override
and the general-family merge are idempotent for a fixed incoming data
mapping. -/
theorem C8_event_idempotent (devices : List (String × Device))
    (states : List (String × Dict)) (ev : DeviceEvent) (dev : Device) (ed : Dict)
    (hdev : get? devices ev.device_id = some dev)
    (hdata : ev.data = Value.obj ed)
    (hed : NodupKeys ed)
    (hevf : ∀ evf, get? ed "state" = some (Value.obj evf) → NodupKeys evf)
    (he : NodupKeys ((get? states ev.device_id).getD []))
    (hexf : ∀ exf, get? ((get? states ev.device_id).getD []) "state"
        = some (Value.obj exf) → NodupKeys exf) :
    ∃ s1, onDeviceEvent devices states ev = some (s1, true) ∧
      onDeviceEvent devices s1 ev = some (s1, true) := by
  simp only [onDeviceEvent, hdev, hdata]
  by_cases hth : dev.device_type = "THSensor"
  · simp only [if_pos hth]
    refine ⟨_, rfl, ?_⟩
    rw [get?_insert_self, Option.getD_some, mergeTH_idem he hed hevf,
      insert_insert_self]
  · simp only [if_neg hth]
    refine ⟨_, rfl, ?_⟩
    rw [get?_insert_self, Option.getD_some, mergeGeneral_idem he hed hexf hevf,
      insert_insert_self]

theorem C8_witness :
    ∃ s1,
      onDeviceEvent [("d1", ⟨"d1", "th", "tok", "THSensor", "THSensor", none⟩)] []
        ⟨"d1", "report", Value.obj [("temperature", Value.num 20)]⟩
        = some (s1, true) ∧
      onDeviceEvent [("d1", ⟨"d1", "th", "tok", "THSensor", "THSensor", none⟩)] s1
        ⟨"d1", "report", Value.obj [("temperature", Value.num 20)]⟩
        = some (s1, true) :=
  C8_event_idempotent [("d1", ⟨"d1", "th", "tok", "THSensor", "THSensor", none⟩)] []
    ⟨"d1", "report", Value.obj [("temperature", Value.num 20)]⟩
    ⟨"d1", "th", "tok", "THSensor", "THSensor", none⟩
    [("temperature", Value.num 20)]
    rfl rfl (by unfold NodupKeys keys; decide)
    (fun evf h => by simp [get?] at h)
    (by unfold NodupKeys keys; decide)
    (fun exf h => by simp [get?] at h)

end YoLocal
